import Mathlib

/-!
Verification of the bank-transaction analysis pipeline: field parsing,
column auto-detection, encoding resolution, internal-transfer matching and
batched classification orchestration, modelled as executable Lean functions
translated from the Python source (`app.py`).
-/

/-! ## Data model: the canonical transaction record (normalize_dataframe output) -/

structure Transaction where
  date : Option Int
  description : String
  amount : Rat
  account : String
  currency : String
  source : String
  category : String
  internal_transfer : Bool
deriving DecidableEq, Inhabited

/-! ## Generic list helper lemmas (getD over set / map / append) -/

theorem getD_set_ne {α : Type} (l : List α) (i j : Nat) (a d : α) (h : i ≠ j) :
    (l.set i a).getD j d = l.getD j d := by
  induction l generalizing i j with
  | nil => simp [List.set]
  | cons x xs ih =>
    cases i with
    | zero =>
      cases j with
      | zero => exact absurd rfl h
      | succ j => simp [List.set, List.getD]
    | succ i =>
      cases j with
      | zero => simp [List.set, List.getD]
      | succ j =>
        simp only [List.set, List.getD_cons_succ]
        exact ih i j (fun hc => h (by rw [hc]))

theorem getD_set_self {α : Type} (l : List α) (i : Nat) (a d : α) (h : i < l.length) :
    (l.set i a).getD i d = a := by
  induction l generalizing i with
  | nil => simp at h
  | cons x xs ih =>
    cases i with
    | zero => simp [List.set, List.getD]
    | succ i =>
      simp only [List.set, List.getD_cons_succ]
      exact ih i (by simpa using h)

theorem getD_map_lt {α β : Type} (f : α → β) (l : List α) (i : Nat) (d : α) (e : β)
    (h : i < l.length) : (l.map f).getD i e = f (l.getD i d) := by
  induction l generalizing i with
  | nil => simp at h
  | cons x xs ih =>
    cases i with
    | zero => simp [List.getD]
    | succ i =>
      simp only [List.map, List.getD_cons_succ]
      exact ih i (by simpa using h)

theorem getD_append_lt {α : Type} (l l' : List α) (i : Nat) (d : α) (h : i < l.length) :
    (l ++ l').getD i d = l.getD i d := by
  induction l generalizing i with
  | nil => simp at h
  | cons x xs ih =>
    cases i with
    | zero => simp [List.getD]
    | succ i =>
      simp only [List.cons_append, List.getD_cons_succ]
      exact ih i (by simpa using h)

theorem getD_append_length {α : Type} (l : List α) (x d : α) :
    (l ++ [x]).getD l.length d = x := by
  induction l with
  | nil => simp [List.getD]
  | cons y ys ih =>
    simp only [List.cons_append, List.length_cons, List.getD_cons_succ]
    exact ih

/-! ## Character-list string primitives (kernel-reducible replacements for
Python str methods; all structural recursion) -/

/-- Python `str.strip()` on a character list. -/
def pyStrip (cs : List Char) : List Char :=
  ((cs.dropWhile Char.isWhitespace).reverse.dropWhile Char.isWhitespace).reverse

/-- Whether `needle` occurs at the start of `hay`. -/
def startsWith : List Char → List Char → Bool
  | [], _ => true
  | _ :: _, [] => false
  | a :: as, b :: bs => (a == b) && startsWith as bs

/-- Whether `needle` occurs anywhere inside `hay` (substring containment). -/
def occursIn (needle : List Char) : List Char → Bool
  | [] => needle.isEmpty
  | c :: rest => startsWith needle (c :: rest) || occursIn needle rest

/-- Case-insensitive substring containment on strings, as produced by
`str.contains(..., case=False)` / `re.IGNORECASE` on literal patterns. -/
def containsCI (hay needle : String) : Bool :=
  occursIn (needle.toList.map Char.toLower) (hay.toList.map Char.toLower)

/-- Split a character list at newline characters (`str.split('\n')`). -/
def splitLines (cs : List Char) : List (List Char) :=
  match cs with
  | [] => [[]]
  | c :: rest =>
    let r := splitLines rest
    if c = '\n' then [] :: r
    else match r with
      | [] => [[c]]
      | l :: ls => (c :: l) :: ls

/-! ## Field parser: clean_amount (app.py, lines 254-279) -/

def digitsToNat (cs : List Char) : Nat :=
  cs.foldl (fun a c => a * 10 + (c.toNat - '0'.toNat)) 0

/-- Model of Python `float()` applied to a string over the alphabet of
digits, `.` and `-` (the only characters that survive the final strip in
`clean_amount`): optional leading minus, then digits with at most one
decimal point and at least one digit; anything else raises `ValueError`.
The parsed value of `intPart.fracPart` is the concatenated digit string
over `10 ^ (number of fraction digits)`. -/
def pyFloatUnsigned (cs : List Char) : Option Rat :=
  let intPart := cs.takeWhile Char.isDigit
  let rest := cs.dropWhile Char.isDigit
  match rest with
  | [] => if intPart.isEmpty then none else some (Rat.divInt (digitsToNat intPart) 1)
  | '.' :: frac =>
    if frac.all Char.isDigit && !(intPart.isEmpty && frac.isEmpty) then
      some (Rat.divInt (digitsToNat (intPart ++ frac)) ((10 : Int) ^ frac.length))
    else none
  | _ => none

def pyFloat (cs : List Char) : Option Rat :=
  match cs with
  | '-' :: rest => (pyFloatUnsigned rest).map (fun r => -r)
  | _ => pyFloatUnsigned cs

def currencySymbols : List Char := ['€', '$', '£', '¥']

/-- Model of `clean_amount` (app.py): strip, drop currency symbols, European-format
comma/dot handling, strip all remaining non-digit non-`.` non-`-`
characters, then parse; any parse failure yields `0.0`. -/
def clean_amount (s : String) : Rat :=
  let s1 := pyStrip s.toList
  let s2 := s1.filter (fun c => !(currencySymbols.contains c))
  let s3 :=
    if s2.contains ',' && s2.contains '.' then
      (s2.filter (fun c => c ≠ '.')).map (fun c => if c = ',' then '.' else c)
    else if s2.contains ',' then
      s2.map (fun c => if c = ',' then '.' else c)
    else s2
  let s4 := s3.filter (fun c => c.isDigit || c = '.' || c = '-')
  match pyFloat s4 with
  | some r => r
  | none => 0

/-! ## Column Mapper (app.py: normalize_column_name, COLUMN_MAPPINGS,
auto_detect_columns) -/

/-- Model of `normalize_column_name`: lower-case, strip, remove spaces, remove
underscores. -/
def normalize_column_name (c : String) : String :=
  String.mk (((pyStrip (c.toList.map Char.toLower)).filter
    (fun ch => ch ≠ ' ')).filter (fun ch => ch ≠ '_'))

def dateVariations : List String :=
  ["datum", "date", "buchung", "valuta", "buchungstag", "wertstellung",
   "transaction date", "transactiondate"]

def descriptionVariations : List String :=
  ["beschreibung", "description", "verwendungszweck", "buchungstext", "text",
   "details", "transaction details", "purpose"]

def amountVariations : List String :=
  ["betrag", "amount", "wert", "value", "sum", "summe"]

def accountVariations : List String :=
  ["auftraggeber", "empfänger", "empfaenger", "auftraggeber/empfänger",
   "auftraggeber/empfaenger", "auftraggeber/empfnger", "account", "recipient",
   "payee", "payer", "name"]

def currencyVariations : List String :=
  ["währung", "waehrung", "whrung", "currency", "whrun", "eur", "usd"]

/-- Lookup in the first-occurrence dictionary of normalized headers: the
first column whose normalized name equals `key` (duplicate normalized
headers keep only their first occurrence). -/
def lookupNorm (cols : List String) (key : String) : Option String :=
  cols.find? (fun c => normalize_column_name c = key)

/-- Try each synonym in priority order; the first synonym whose normalized
form matches some header wins. -/
def detectField (cols : List String) : List String → Option String
  | [] => none
  | v :: vs =>
    match lookupNorm cols (normalize_column_name v) with
    | some c => some c
    | none => detectField cols vs

structure DetectedColumns where
  date : Option String
  description : Option String
  amount : Option String
  account : Option String
  currency : Option String
deriving DecidableEq

/-- Model of `auto_detect_columns` over the header list of a data frame. -/
def auto_detect_columns (cols : List String) : DetectedColumns :=
  { date := detectField cols dateVariations
    description := detectField cols descriptionVariations
    amount := detectField cols amountVariations
    account := detectField cols accountVariations
    currency := detectField cols currencyVariations }

example : (auto_detect_columns ["Datum "]).date = some "Datum " := by decide
example : (auto_detect_columns ["Buchungs_Tag", "Betrag"]).amount = some "Betrag" := by decide

/-! ## Encoding resolution of the CSV loader (app.py: load_csv_file,
lines 380-414). Bytes are `Fin 256`; decoded text is the list of Unicode
code points. A strict decoder returns `none` exactly where Python's
`bytes.decode(enc, errors="strict")` raises `UnicodeDecodeError`. -/

abbrev Byte := Fin 256

deriving instance DecidableEq for Except

def contByte (c : Byte) : Bool := 0x80 ≤ c.val && c.val ≤ 0xBF

/-- Strict UTF-8 decoding: rejects truncated sequences, stray continuation
bytes, overlong forms, surrogates and code points above U+10FFFF. -/
def utf8Decode : List Byte → Option (List Nat)
  | [] => some []
  | b :: rest =>
    let n := b.val
    if n < 0x80 then
      (utf8Decode rest).map (fun s => n :: s)
    else if n < 0xC2 then none
    else if n < 0xE0 then
      match rest with
      | c1 :: rest2 =>
        if contByte c1 then
          (utf8Decode rest2).map (fun s => ((n - 0xC0) * 0x40 + (c1.val - 0x80)) :: s)
        else none
      | [] => none
    else if n < 0xF0 then
      match rest with
      | c1 :: c2 :: rest3 =>
        let okC1 : Bool :=
          if n = 0xE0 then 0xA0 ≤ c1.val && c1.val ≤ 0xBF
          else if n = 0xED then 0x80 ≤ c1.val && c1.val ≤ 0x9F
          else contByte c1
        if okC1 && contByte c2 then
          (utf8Decode rest3).map (fun s =>
            ((n - 0xE0) * 0x1000 + (c1.val - 0x80) * 0x40 + (c2.val - 0x80)) :: s)
        else none
      | _ => none
    else if n < 0xF5 then
      match rest with
      | c1 :: c2 :: c3 :: rest4 =>
        let okC1 : Bool :=
          if n = 0xF0 then 0x90 ≤ c1.val && c1.val ≤ 0xBF
          else if n = 0xF4 then 0x80 ≤ c1.val && c1.val ≤ 0x8F
          else contByte c1
        if okC1 && contByte c2 && contByte c3 then
          (utf8Decode rest4).map (fun s =>
            ((n - 0xF0) * 0x40000 + (c1.val - 0x80) * 0x1000 +
              (c2.val - 0x80) * 0x40 + (c3.val - 0x80)) :: s)
        else none
      | _ => none
    else none

/-- The cp1252 (windows-1252) byte-to-code-point table; `none` for the five
unassigned bytes, on which strict decoding raises. -/
def cp1252Byte (b : Nat) : Option Nat :=
  if b = 0x80 then some 0x20AC
  else if b = 0x81 then none
  else if b = 0x82 then some 0x201A
  else if b = 0x83 then some 0x0192
  else if b = 0x84 then some 0x201E
  else if b = 0x85 then some 0x2026
  else if b = 0x86 then some 0x2020
  else if b = 0x87 then some 0x2021
  else if b = 0x88 then some 0x02C6
  else if b = 0x89 then some 0x2030
  else if b = 0x8A then some 0x0160
  else if b = 0x8B then some 0x2039
  else if b = 0x8C then some 0x0152
  else if b = 0x8D then none
  else if b = 0x8E then some 0x017D
  else if b = 0x8F then none
  else if b = 0x90 then none
  else if b = 0x91 then some 0x2018
  else if b = 0x92 then some 0x2019
  else if b = 0x93 then some 0x201C
  else if b = 0x94 then some 0x201D
  else if b = 0x95 then some 0x2022
  else if b = 0x96 then some 0x2013
  else if b = 0x97 then some 0x2014
  else if b = 0x98 then some 0x02DC
  else if b = 0x99 then some 0x2122
  else if b = 0x9A then some 0x0161
  else if b = 0x9B then some 0x203A
  else if b = 0x9C then some 0x0153
  else if b = 0x9D then none
  else if b = 0x9E then some 0x017E
  else if b = 0x9F then some 0x0178
  else some b

def cp1252Decode (bs : List Byte) : Option (List Nat) :=
  bs.mapM (fun b => cp1252Byte b.val)

/-- ISO-8859-1: every byte maps to the code point of the same value; strict
decoding never fails. -/
def latin1Decode (bs : List Byte) : List Nat :=
  bs.map Fin.val

/-- ISO-8859-15: ISO-8859-1 with eight replaced positions. -/
def latin9Byte (b : Nat) : Nat :=
  if b = 0xA4 then 0x20AC
  else if b = 0xA6 then 0x0160
  else if b = 0xA8 then 0x0161
  else if b = 0xB4 then 0x017D
  else if b = 0xB8 then 0x017E
  else if b = 0xBC then 0x0152
  else if b = 0xBD then 0x0153
  else if b = 0xBE then 0x0178
  else b

def latin9Decode (bs : List Byte) : List Nat :=
  bs.map (fun b => latin9Byte b.val)

/-- cp1252 with `errors="replace"`: unassigned bytes become U+FFFD. -/
def cp1252ReplaceDecode (bs : List Byte) : List Nat :=
  bs.map (fun b => (cp1252Byte b.val).getD 0xFFFD)

/-- cp1252 with `errors="ignore"`: unassigned bytes are dropped. -/
def cp1252IgnoreDecode (bs : List Byte) : List Nat :=
  bs.filterMap (fun b => cp1252Byte b.val)

/-- The ordered encoding candidates of `load_csv_file` for files without a
UTF-8 BOM: utf-8 strict, cp1252 strict, ISO-8859-1 strict, ISO-8859-15
strict, cp1252 with replacement. -/
def encCandidates : List (List Byte → Option (List Nat)) :=
  [utf8Decode,
   cp1252Decode,
   fun bs => some (latin1Decode bs),
   fun bs => some (latin9Decode bs),
   fun bs => some (cp1252ReplaceDecode bs)]

def tryCandidates : List (List Byte → Option (List Nat)) → List Byte → Option (List Nat)
  | [], _ => none
  | f :: fs, bs =>
    match f bs with
    | some s => some s
    | none => tryCandidates fs bs

def hasBOM (bs : List Byte) : Bool :=
  bs.take 3 = [(0xEF : Byte), 0xBB, 0xBF]

/-- The encoding-resolution step of `load_csv_file`: with a UTF-8 BOM the
remainder is decoded strictly as UTF-8 (an undecodable remainder raises,
modelled as `Except.error`); otherwise the candidate list is tried in order
accepting the first decode that does not raise, with a final
`errors="ignore"` cp1252 fallback. -/
def load_csv_decode (bs : List Byte) : Except Unit (List Nat) :=
  if hasBOM bs then
    match utf8Decode (bs.drop 3) with
    | some s => Except.ok s
    | none => Except.error ()
  else
    match tryCandidates encCandidates bs with
    | some s => Except.ok s
    | none => Except.ok (cp1252IgnoreDecode bs)

example : load_csv_decode [0xEF, 0xBB, 0xBF, 0x80] = Except.error () := by decide
example : load_csv_decode [0xEF, 0xBF, 0xBD] = Except.ok [0xFFFD] := by decide
example : load_csv_decode [0x48, 0xE4] = Except.ok [0x48, 0xE4] := by decide

/-! ## Transfer Matcher (app.py: detect_internal_transfers, lines 533-582) -/

/-- Rational addition computed on cross-multiplied numerators; proved equal
to `+` below (kernel-evaluable form of the bound arithmetic). -/
def ratAdd (a b : Rat) : Rat :=
  Rat.divInt (a.num * b.den + b.num * a.den) (a.den * b.den)

/-- Rational subtraction computed on cross-multiplied numerators; proved
equal to `-` below. -/
def ratSub (a b : Rat) : Rat :=
  Rat.divInt (a.num * b.den - b.num * a.den) (a.den * b.den)

theorem ratAdd_eq (a b : Rat) : ratAdd a b = a + b := by
  rw [ratAdd]
  conv_rhs => rw [← Rat.num_divInt_den a, ← Rat.num_divInt_den b]
  rw [Rat.divInt_add_divInt _ _
    (Int.natCast_ne_zero.mpr a.den_nz) (Int.natCast_ne_zero.mpr b.den_nz)]

theorem ratSub_eq (a b : Rat) : ratSub a b = a - b := by
  have h : a - b = a + (-b) := by ring
  rw [h, ← ratAdd_eq, ratAdd, ratSub, Rat.neg_num, Rat.neg_den]
  ring_nf

def investmentKeywords : List String :=
  ["WP-", "Wertpapier", "ETF", "ISIN", "Kauf", "Verkauf", "Dividende", "Zins"]

/-- A transaction is investment-related when its description contains one of
the fixed keywords, case-insensitively. -/
def isInvestment (t : Transaction) : Bool :=
  investmentKeywords.any (fun k => containsCI t.description k)

/-- The user-identity pass: when a user name is supplied, every transaction
whose account contains it (case-insensitively) and that is not an
investment gets `internal_transfer := true`; all others are unchanged. -/
def applyUserFlagAux (u : String) : List Transaction → List Bool → List Transaction
  | [], _ => []
  | ts, [] => ts
  | t :: ts, iv :: ivs =>
    (if containsCI t.account u && !iv then { t with internal_transfer := true } else t)
      :: applyUserFlagAux u ts ivs

def applyUserFlag (u : String) (inv : List Bool) (txs : List Transaction) : List Transaction :=
  if u = "" then txs else applyUserFlagAux u txs inv

/-- Whether row `j` belongs to the candidate pool for row `i` carrying
amount `amt` and date `d`: distinct row, not yet flagged, not an
investment, amount within `tol` of `-amt` (inclusive bounds, as
`Series.between`), and date present and at most 2 days away. -/
def candidateOk (txs : List Transaction) (inv : List Bool) (i : Nat) (amt : Rat)
    (d : Int) (tol : Rat) (j : Nat) : Bool :=
  let tj := txs.getD j default
  (j ≠ i : Bool) && !tj.internal_transfer && !(inv.getD j false) &&
    (ratSub (-amt) tol ≤ tj.amount) && (tj.amount ≤ ratAdd (-amt) tol) &&
    (match tj.date with
     | some dj => (dj - d).natAbs ≤ 2
     | none => false)

/-- Scan for the lowest-index candidate, starting at row `s` with `r` rows
remaining to inspect. -/
def findMatchFrom (txs : List Transaction) (inv : List Bool) (i : Nat) (amt : Rat)
    (d : Int) (tol : Rat) : Nat → Nat → Option Nat
  | _, 0 => none
  | s, r + 1 =>
    if candidateOk txs inv i amt d tol s then some s
    else findMatchFrom txs inv i amt d tol (s + 1) r

/-- Model of `matches.index[0]`: the lowest-index row of the candidate pool. -/
def findMatch (txs : List Transaction) (inv : List Bool) (i : Nat) (amt : Rat)
    (d : Int) (tol : Rat) : Option Nat :=
  findMatchFrom txs inv i amt d tol 0 txs.length

def setFlag (txs : List Transaction) (j : Nat) : List Transaction :=
  match txs.get? j with
  | some t => txs.set j { t with internal_transfer := true }
  | none => txs

/-- One iteration of the pairing loop at row `i`: skip if already flagged,
an investment, date-less or zero-amount; otherwise flag both `i` and the
lowest-index candidate when the pool is non-empty. -/
def transferStep (inv : List Bool) (tol : Rat) (txs : List Transaction) (i : Nat) :
    List Transaction :=
  let t := txs.getD i default
  if t.internal_transfer || inv.getD i false then txs
  else
    match t.date with
    | none => txs
    | some d =>
      if t.amount = 0 then txs
      else
        match findMatch txs inv i t.amount d tol with
        | none => txs
        | some j => setFlag (setFlag txs i) j

/-- Model of `detect_internal_transfers`: investment mask, user-identity pass, then
the greedy pairing loop over rows in index order. -/
def detect_internal_transfers (txs : List Transaction) (user_name : String)
    (tol : Rat) : List Transaction :=
  let inv := txs.map isInvestment
  let txs1 := applyUserFlag user_name inv txs
  (List.range txs1.length).foldl (transferStep inv tol) txs1

/-- A plain unflagged transaction used to build concrete examples. -/
def mkTx (ds : String) (amt : Rat) (dt : Option Int) (acc : String) : Transaction :=
  { date := dt, description := ds, amount := amt, account := acc,
    currency := "EUR", source := "a.csv", category := "Uncategorized",
    internal_transfer := false }

/-- Three transactions that all mutually match on negated amount within
tolerance 0.01 and date: amounts 0.005, -0.005, 0.005. -/
def exThree : List Transaction :=
  [mkTx "a" (Rat.divInt 1 200) (some 0) "X",
   mkTx "b" (Rat.divInt (-1) 200) (some 0) "Y",
   mkTx "c" (Rat.divInt 1 200) (some 1) "Z"]

example :
    (detect_internal_transfers exThree "" (Rat.divInt 1 100)).map
      (fun t => t.internal_transfer) = [true, true, false] := by decide

example :
    (detect_internal_transfers
      [mkTx "Miete" 500 (some 10) "Max Mustermann",
       mkTx "ETF Kauf" (-500) (some 10) "Max Depot"] "max" (Rat.divInt 1 100)).map
      (fun t => t.internal_transfer) = [true, false] := by decide

/-! ## Batch classifier (app.py: classify_batch_with_ollama, lines 630-693).
The external service call is an oracle: `none` models the call (or reply
access) raising; `some text` models the reply text. -/

def sepChars : List Char := ['.', ')', '-', ':']

/-- The category extracted from a stripped reply line that starts with a
digit: drop the leading digits, one optional separator, leading whitespace,
then strip (the trailing `.strip()` of the captured remainder). -/
def extractCategory (l : List Char) : List Char :=
  let afterDigits := l.dropWhile Char.isDigit
  let afterSep :=
    match afterDigits with
    | c :: rest => if sepChars.contains c then rest else afterDigits
    | [] => []
  pyStrip (afterSep.dropWhile Char.isWhitespace)

/-- A reply line matches `^\d+[.)\-:]?\s*` exactly when, after stripping, it
starts with a digit; such lines yield a category. -/
def lineCategory (line : List Char) : Option String :=
  let l := pyStrip line
  match l with
  | c :: _ => if c.isDigit then some (String.mk (extractCategory l)) else none
  | [] => none

/-- Categories recovered from a reply: strip the reply, split at newlines,
keep the numbered lines in order of appearance. -/
def parseNumbered (text : String) : List String :=
  (splitLines (pyStrip text.toList)).filterMap lineCategory

/-- Pad a short category list with "Sonstiges" up to `n`, then truncate
to `n`. -/
def padTruncate (cats : List String) (n : Nat) : List String :=
  (cats ++ List.replicate (n - cats.length) "Sonstiges").take n

/-- Model of `classify_batch_with_ollama` on a batch of (account, description)
pairs: on a successful call, parse-pad-truncate; when the call raises,
every member of the batch falls back to "Sonstiges". -/
def classify_batch_with_ollama (batch : List (String × String))
    (outcome : Option String) : List String :=
  match outcome with
  | some reply => padTruncate (parseNumbered reply) batch.length
  | none => List.replicate batch.length "Sonstiges"

example : parseNumbered "1. Miete\n2) Strom\nblah\n3- Netz" =
    ["Miete", "Strom", "Netz"] := by decide
example : classify_batch_with_ollama [("a", "x"), ("b", "y"), ("c", "z")]
    (some "1. Miete\n2. Strom") = ["Miete", "Strom", "Sonstiges"] := by decide
example : classify_batch_with_ollama [("a", "x"), ("b", "y"), ("c", "z")]
    (some "1. K1\n2. K2\n3. K3\n4. K4\n5. K5") = ["K1", "K2", "K3"] := by decide

/-! ## Classification Orchestrator (app.py: classify_transactions,
lines 696-765). The cancellation signal is the value of the session flag
read at the check before each batch, as a function of the batch number;
the oracle gives each batch's service outcome. -/

/-- Model of `df[~df.Internal_Transfer].index.tolist()`: the rows eligible for
classification, in ascending row order. -/
def toClassifyIndices (txs : List Transaction) : List Nat :=
  (List.range txs.length).filter (fun i => !(txs.getD i default).internal_transfer)

/-- The row indices of batch `b`: positions `[b*bs, b*bs+bs)` of the
eligible list. -/
def batchSlice (idxs : List Nat) (bs b : Nat) : List Nat :=
  (idxs.drop (b * bs)).take bs

def setCat (txs : List Transaction) (i : Nat) (c : String) : List Transaction :=
  match txs.get? i with
  | some t => txs.set i { t with category := c }
  | none => txs

/-- Model of `for idx, category in zip(batch_indices, batch_categories): df.loc[idx,
'Category'] = category`. -/
def assignCats (txs : List Transaction) : List Nat → List String → List Transaction
  | i :: is, c :: cs => assignCats (setCat txs i c) is cs
  | _, _ => txs

/-- The (account, description) pairs submitted for batch `b`. -/
def batchData (txs : List Transaction) (idxs : List Nat) (bs b : Nat) :
    List (String × String) :=
  (batchSlice idxs bs b).map
    (fun i => ((txs.getD i default).account, (txs.getD i default).description))

/-- The batch loop from batch `b` with `fuel` batches left: check the
cancellation flag, classify the batch, assign its categories, recurse.
Returns the table and whether the loop was exited by cancellation. -/
def runBatches (outcome : Nat → Option String) (cancelAt : Nat → Bool)
    (idxs : List Nat) (bs : Nat) : Nat → Nat → List Transaction →
    List Transaction × Bool
  | _, 0, txs => (txs, false)
  | b, fuel + 1, txs =>
    if cancelAt b then (txs, true)
    else
      let cats := classify_batch_with_ollama (batchData txs idxs bs b) (outcome b)
      runBatches outcome cancelAt idxs bs (b + 1) fuel
        (assignCats txs (batchSlice idxs bs b) cats)

/-- The closing pass `df.loc[df.Internal_Transfer, 'Category'] = 'Internal
Transfer'`. -/
def markInternal (txs : List Transaction) : List Transaction :=
  txs.map (fun t =>
    if t.internal_transfer then { t with category := "Internal Transfer" } else t)

def numBatches (total bs : Nat) : Nat := (total + bs - 1) / bs

/-- Model of `classify_transactions`: flagged rows are excluded up front; the
eligible rows are processed in consecutive batches (cancellable before each
batch); finally every flagged row gets the reserved label. The boolean
reports whether the run was cancelled. -/
def classify_transactions (txs : List Transaction) (bs : Nat)
    (outcome : Nat → Option String) (cancelAt : Nat → Bool) :
    List Transaction × Bool :=
  if (toClassifyIndices txs).length = 0 then (markInternal txs, false)
  else
    (markInternal (runBatches outcome cancelAt (toClassifyIndices txs) bs 0
        (numBatches (toClassifyIndices txs).length bs) txs).1,
      (runBatches outcome cancelAt (toClassifyIndices txs) bs 0
        (numBatches (toClassifyIndices txs).length bs) txs).2)

example :
    (classify_transactions
      [mkTx "a" 1 (some 0) "A", mkTx "b" 2 (some 0) "B"] 1
      (fun b => if b = 0 then some "1. Essen" else none)
      (fun _ => false)).1.map (fun t => t.category) = ["Essen", "Sonstiges"] := by
  decide

/-! ## Reference semantics of the two mutation passes. A heap maps
references (indices) to transaction tables; `df = df.copy()` allocates a
fresh reference holding a copy of the argument table, and all updates
happen at the fresh reference, which is returned. -/

abbrev Heap : Type := List (List Transaction)

/-- Model of `df.copy()`: allocate a fresh reference holding a copy of the table at
`r`. -/
def copyAlloc (h : Heap) (r : Nat) : Heap × Nat :=
  (h ++ [h.getD r []], h.length)

/-- Model of `detect_internal_transfers` at the reference level: copy, update the
copy in place, return the copy's reference. -/
def detectRef (h : Heap) (r : Nat) (u : String) (tol : Rat) : Heap × Nat :=
  let c := copyAlloc h r
  (c.1.set c.2 (detect_internal_transfers (c.1.getD c.2 []) u tol), c.2)

/-- Model of `classify_transactions` at the reference level: copy, update the copy
in place, return the copy's reference. -/
def classifyRef (h : Heap) (r : Nat) (bs : Nat) (outcome : Nat → Option String)
    (cancelAt : Nat → Bool) : Heap × Nat :=
  let c := copyAlloc h r
  (c.1.set c.2 (classify_transactions (c.1.getD c.2 []) bs outcome cancelAt).1, c.2)

/-- A table on which the matcher changes flags: a plain offsetting pair. -/
def exPair : List Transaction :=
  [mkTx "Miete" 500 (some 0) "A", mkTx "Gutschrift" (-500) (some 1) "B"]

example :
    ((detectRef [exPair] 0 "" (Rat.divInt 1 100)).1.getD 0 []) = exPair := by decide
example :
    detect_internal_transfers exPair "" (Rat.divInt 1 100) ≠ exPair := by decide

/-! ## Frame relations: rows that agree on every field except one -/

/-- Equality of all Transaction fields except `internal_transfer`. -/
def sameExceptIT (t u : Transaction) : Prop :=
  t.date = u.date ∧ t.description = u.description ∧ t.amount = u.amount ∧
    t.account = u.account ∧ t.currency = u.currency ∧ t.source = u.source ∧
    t.category = u.category

/-- Equality of all Transaction fields except `category`. -/
def sameExceptCat (t u : Transaction) : Prop :=
  t.date = u.date ∧ t.description = u.description ∧ t.amount = u.amount ∧
    t.account = u.account ∧ t.currency = u.currency ∧ t.source = u.source ∧
    t.internal_transfer = u.internal_transfer

theorem sameExceptIT_refl (t : Transaction) : sameExceptIT t t :=
  ⟨rfl, rfl, rfl, rfl, rfl, rfl, rfl⟩

theorem sameExceptIT_trans {a b c : Transaction} (h1 : sameExceptIT a b)
    (h2 : sameExceptIT b c) : sameExceptIT a c := by
  obtain ⟨x1, x2, x3, x4, x5, x6, x7⟩ := h1
  obtain ⟨y1, y2, y3, y4, y5, y6, y7⟩ := h2
  exact ⟨x1.trans y1, x2.trans y2, x3.trans y3, x4.trans y4, x5.trans y5,
    x6.trans y6, x7.trans y7⟩

theorem sameExceptCat_refl (t : Transaction) : sameExceptCat t t :=
  ⟨rfl, rfl, rfl, rfl, rfl, rfl, rfl⟩

theorem sameExceptCat_trans {a b c : Transaction} (h1 : sameExceptCat a b)
    (h2 : sameExceptCat b c) : sameExceptCat a c := by
  obtain ⟨x1, x2, x3, x4, x5, x6, x7⟩ := h1
  obtain ⟨y1, y2, y3, y4, y5, y6, y7⟩ := h2
  exact ⟨x1.trans y1, x2.trans y2, x3.trans y3, x4.trans y4, x5.trans y5,
    x6.trans y6, x7.trans y7⟩

theorem getD_eq_get? {α : Type} (l : List α) (i : Nat) (d : α) :
    l.getD i d = (l.get? i).getD d := rfl

theorem get?_some_lt {α : Type} {l : List α} {i : Nat} {a : α}
    (h : l.get? i = some a) : i < l.length := by
  by_contra hc
  rw [List.get?_eq_none.mpr (Nat.le_of_not_lt hc)] at h
  exact Option.noConfusion h

/-! ## setFlag / setCat pointwise lemmas -/

theorem setFlag_length (txs : List Transaction) (j : Nat) :
    (setFlag txs j).length = txs.length := by
  rw [setFlag]
  cases txs.get? j <;> simp

theorem setFlag_getD_ne (txs : List Transaction) (j i : Nat) (h : j ≠ i) :
    (setFlag txs j).getD i default = txs.getD i default := by
  rw [setFlag]
  cases htj : txs.get? j with
  | none => rfl
  | some t => exact getD_set_ne _ _ _ _ _ h

theorem setFlag_sameExceptIT (txs : List Transaction) (j i : Nat) :
    sameExceptIT ((setFlag txs j).getD i default) (txs.getD i default) := by
  by_cases hji : j = i
  · subst hji
    rw [setFlag]
    cases htj : txs.get? j with
    | none => exact sameExceptIT_refl _
    | some t =>
      rw [getD_set_self _ _ _ _ (get?_some_lt htj), getD_eq_get?, htj]
      exact ⟨rfl, rfl, rfl, rfl, rfl, rfl, rfl⟩
  · rw [setFlag_getD_ne _ _ _ hji]
    exact sameExceptIT_refl _

theorem setFlag_mono (txs : List Transaction) (j i : Nat)
    (h : (txs.getD i default).internal_transfer = true) :
    ((setFlag txs j).getD i default).internal_transfer = true := by
  by_cases hji : j = i
  · subst hji
    rw [setFlag]
    cases htj : txs.get? j with
    | none => exact h
    | some t => rw [getD_set_self _ _ _ _ (get?_some_lt htj)]
  · rw [setFlag_getD_ne _ _ _ hji]
    exact h

theorem setCat_length (txs : List Transaction) (i : Nat) (c : String) :
    (setCat txs i c).length = txs.length := by
  rw [setCat]
  cases txs.get? i <;> simp

theorem setCat_getD_ne (txs : List Transaction) (i j : Nat) (c : String) (h : i ≠ j) :
    (setCat txs i c).getD j default = txs.getD j default := by
  rw [setCat]
  cases hti : txs.get? i with
  | none => rfl
  | some t => exact getD_set_ne _ _ _ _ _ h

theorem setCat_sameExceptCat (txs : List Transaction) (i j : Nat) (c : String) :
    sameExceptCat ((setCat txs i c).getD j default) (txs.getD j default) := by
  by_cases hij : i = j
  · subst hij
    rw [setCat]
    cases hti : txs.get? i with
    | none => exact sameExceptCat_refl _
    | some t =>
      rw [getD_set_self _ _ _ _ (get?_some_lt hti), getD_eq_get?, hti]
      exact ⟨rfl, rfl, rfl, rfl, rfl, rfl, rfl⟩
  · rw [setCat_getD_ne _ _ _ _ hij]
    exact sameExceptCat_refl _

/-! ## Generic foldl preservation lemmas -/

theorem foldl_getD_rel (R : Transaction → Transaction → Prop)
    (hrefl : ∀ t, R t t)
    (htrans : ∀ {a b c : Transaction}, R a b → R b c → R a c)
    {β : Type} (step : List Transaction → β → List Transaction)
    (hstep : ∀ txs x j, R ((step txs x).getD j default) (txs.getD j default)) :
    ∀ (l : List β) (txs : List Transaction) (j : Nat),
      R ((l.foldl step txs).getD j default) (txs.getD j default) := by
  intro l
  induction l with
  | nil => intro txs j; exact hrefl _
  | cons x xs ih =>
    intro txs j
    exact htrans (ih (step txs x) j) (hstep txs x j)

theorem foldl_length {β : Type} (step : List Transaction → β → List Transaction)
    (hstep : ∀ txs x, (step txs x).length = txs.length) :
    ∀ (l : List β) (txs : List Transaction),
      (l.foldl step txs).length = txs.length := by
  intro l
  induction l with
  | nil => intro txs; rfl
  | cons x xs ih => intro txs; rw [List.foldl_cons, ih, hstep]

theorem foldl_pres {β : Type} (P : List Transaction → Prop)
    (step : List Transaction → β → List Transaction)
    (hstep : ∀ txs x, P txs → P (step txs x)) :
    ∀ (l : List β) (txs : List Transaction), P txs → P (l.foldl step txs) := by
  intro l
  induction l with
  | nil => intro txs h; exact h
  | cons x xs ih => intro txs h; exact ih (step txs x) (hstep txs x h)

/-! ## applyUserFlag lemmas -/

theorem applyUserFlagAux_length (u : String) :
    ∀ (txs : List Transaction) (inv : List Bool),
      (applyUserFlagAux u txs inv).length = txs.length := by
  intro txs
  induction txs with
  | nil => intro inv; cases inv <;> rfl
  | cons t ts ih =>
    intro inv
    cases inv with
    | nil => rfl
    | cons iv ivs => simp [applyUserFlagAux, ih]

theorem applyUserFlagAux_sameExceptIT (u : String) :
    ∀ (txs : List Transaction) (inv : List Bool) (i : Nat),
      sameExceptIT ((applyUserFlagAux u txs inv).getD i default)
        (txs.getD i default) := by
  intro txs
  induction txs with
  | nil => intro inv i; cases inv <;> exact sameExceptIT_refl _
  | cons t ts ih =>
    intro inv i
    cases inv with
    | nil => exact sameExceptIT_refl _
    | cons iv ivs =>
      cases i with
      | zero =>
        simp only [applyUserFlagAux, List.getD_cons_zero]
        by_cases hc : (containsCI t.account u && !iv) = true
        · rw [if_pos hc]; exact ⟨rfl, rfl, rfl, rfl, rfl, rfl, rfl⟩
        · rw [if_neg hc]; exact sameExceptIT_refl _
      | succ i =>
        simp only [applyUserFlagAux, List.getD_cons_succ]
        exact ih ivs i

theorem applyUserFlagAux_mono (u : String) :
    ∀ (txs : List Transaction) (inv : List Bool) (i : Nat),
      (txs.getD i default).internal_transfer = true →
      ((applyUserFlagAux u txs inv).getD i default).internal_transfer = true := by
  intro txs
  induction txs with
  | nil => intro inv i h; cases inv <;> exact h
  | cons t ts ih =>
    intro inv i h
    cases inv with
    | nil => exact h
    | cons iv ivs =>
      cases i with
      | zero =>
        simp only [applyUserFlagAux, List.getD_cons_zero] at h ⊢
        by_cases hc : (containsCI t.account u && !iv) = true
        · rw [if_pos hc]
        · rw [if_neg hc]; exact h
      | succ i =>
        simp only [applyUserFlagAux, List.getD_cons_succ] at h ⊢
        exact ih ivs i h

/-- Characterization of the identity pass on an initially unflagged table:
a row ends flagged exactly when its account contains the user name and it
is not an investment. -/
theorem applyUserFlagAux_flag_iff (u : String) :
    ∀ (txs : List Transaction) (inv : List Bool) (i : Nat),
      i < txs.length → i < inv.length →
      (∀ t ∈ txs, t.internal_transfer = false) →
      ((applyUserFlagAux u txs inv).getD i default).internal_transfer =
        (containsCI (txs.getD i default).account u && !(inv.getD i false)) := by
  intro txs
  induction txs with
  | nil => intro inv i h; simp at h
  | cons t ts ih =>
    intro inv i hi hinv hflags
    cases inv with
    | nil => simp at hinv
    | cons iv ivs =>
      cases i with
      | zero =>
        simp only [applyUserFlagAux, List.getD_cons_zero]
        by_cases hc : (containsCI t.account u && !iv) = true
        · rw [if_pos hc, hc]
        · rw [if_neg hc, hflags t (List.mem_cons_self t ts),
            eq_comm, ← Bool.not_eq_true]
          exact hc
      | succ i =>
        simp only [applyUserFlagAux, List.getD_cons_succ]
        exact ih ivs i (by simpa using hi) (by simpa using hinv)
          (fun x hx => hflags x (List.mem_cons_of_mem t hx))

/-! ## transferStep lemmas -/

theorem transferStep_length (inv : List Bool) (tol : Rat)
    (txs : List Transaction) (i : Nat) :
    (transferStep inv tol txs i).length = txs.length := by
  rw [transferStep]
  repeat' split
  all_goals simp [setFlag_length]

theorem transferStep_sameExceptIT (inv : List Bool) (tol : Rat)
    (txs : List Transaction) (i j : Nat) :
    sameExceptIT ((transferStep inv tol txs i).getD j default)
      (txs.getD j default) := by
  rw [transferStep]
  repeat' split
  all_goals first
    | exact sameExceptIT_refl _
    | exact sameExceptIT_trans (setFlag_sameExceptIT _ _ _)
        (setFlag_sameExceptIT _ _ _)

theorem transferStep_mono (inv : List Bool) (tol : Rat)
    (txs : List Transaction) (i j : Nat)
    (h : (txs.getD j default).internal_transfer = true) :
    ((transferStep inv tol txs i).getD j default).internal_transfer = true := by
  rw [transferStep]
  repeat' split
  all_goals first
    | exact h
    | exact setFlag_mono _ _ _ (setFlag_mono _ _ _ h)

/-! ## detect_internal_transfers frame lemmas -/

theorem detect_length (txs : List Transaction) (u : String) (tol : Rat) :
    (detect_internal_transfers txs u tol).length = txs.length := by
  rw [detect_internal_transfers]
  rw [foldl_length _ (fun ts i => transferStep_length _ _ ts i)]
  rw [applyUserFlag]
  by_cases hu : u = ""
  · rw [if_pos hu]
  · rw [if_neg hu]; exact applyUserFlagAux_length _ _ _

theorem detect_sameExceptIT (txs : List Transaction) (u : String) (tol : Rat)
    (j : Nat) :
    sameExceptIT ((detect_internal_transfers txs u tol).getD j default)
      (txs.getD j default) := by
  rw [detect_internal_transfers]
  refine sameExceptIT_trans
    (foldl_getD_rel sameExceptIT sameExceptIT_refl sameExceptIT_trans _
      (fun ts i j' => transferStep_sameExceptIT _ _ ts i j') _ _ j) ?_
  rw [applyUserFlag]
  by_cases hu : u = ""
  · rw [if_pos hu]; exact sameExceptIT_refl _
  · rw [if_neg hu]; exact applyUserFlagAux_sameExceptIT _ _ _ _

theorem detect_mono (txs : List Transaction) (u : String) (tol : Rat) (i : Nat)
    (h : (txs.getD i default).internal_transfer = true) :
    ((detect_internal_transfers txs u tol).getD i default).internal_transfer = true := by
  rw [detect_internal_transfers]
  refine foldl_pres (fun ts => (ts.getD i default).internal_transfer = true) _
    (fun ts x hx => transferStep_mono _ _ ts x i hx) _ _ ?_
  rw [applyUserFlag]
  by_cases hu : u = ""
  · rw [if_pos hu]; exact h
  · rw [if_neg hu]; exact applyUserFlagAux_mono _ _ _ _ h

/-! ## findMatchFrom minimality -/

theorem findMatchFrom_spec (txs : List Transaction) (inv : List Bool) (i : Nat)
    (amt : Rat) (d : Int) (tol : Rat) :
    ∀ (r s j : Nat), findMatchFrom txs inv i amt d tol s r = some j →
      s ≤ j ∧ candidateOk txs inv i amt d tol j = true ∧
        ∀ k, s ≤ k → k < j → candidateOk txs inv i amt d tol k = false := by
  intro r
  induction r with
  | zero => intro s j h; exact Option.noConfusion h
  | succ r ih =>
    intro s j h
    rw [findMatchFrom] at h
    by_cases hc : candidateOk txs inv i amt d tol s = true
    · rw [if_pos hc] at h
      obtain rfl : s = j := Option.some.injEq _ _ ▸ h
      exact ⟨Nat.le_refl _, hc, fun k hk1 hk2 => absurd hk1 (Nat.not_le_of_lt hk2)⟩
    · rw [if_neg hc] at h
      obtain ⟨h1, h2, h3⟩ := ih (s + 1) j h
      refine ⟨Nat.le_of_succ_le h1, h2, fun k hk1 hk2 => ?_⟩
      rcases Nat.eq_or_lt_of_le hk1 with hk | hk
      · rw [← hk]; exact Bool.not_eq_true _ ▸ hc
      · exact h3 k hk hk2

/-! ## Batch classifier length lemmas -/

theorem padTruncate_length (cats : List String) (n : Nat) :
    (padTruncate cats n).length = n := by
  rw [padTruncate, List.length_take, List.length_append, List.length_replicate]
  omega

theorem classify_batch_length (batch : List (String × String))
    (outcome : Option String) :
    (classify_batch_with_ollama batch outcome).length = batch.length := by
  cases outcome with
  | none => exact List.length_replicate _ _
  | some reply => exact padTruncate_length _ _

/-! ## assignCats lemmas -/

theorem assignCats_length :
    ∀ (is : List Nat) (cs : List String) (txs : List Transaction),
      (assignCats txs is cs).length = txs.length := by
  intro is
  induction is with
  | nil => intro cs txs; cases cs <;> rfl
  | cons i is ih =>
    intro cs txs
    cases cs with
    | nil => rfl
    | cons c cs => rw [assignCats, ih, setCat_length]

theorem assignCats_sameExceptCat :
    ∀ (is : List Nat) (cs : List String) (txs : List Transaction) (j : Nat),
      sameExceptCat ((assignCats txs is cs).getD j default) (txs.getD j default) := by
  intro is
  induction is with
  | nil => intro cs txs j; cases cs <;> exact sameExceptCat_refl _
  | cons i is ih =>
    intro cs txs j
    cases cs with
    | nil => exact sameExceptCat_refl _
    | cons c cs =>
      rw [assignCats]
      exact sameExceptCat_trans (ih cs _ j) (setCat_sameExceptCat _ _ _ _)

theorem assignCats_getD_notMem :
    ∀ (is : List Nat) (cs : List String) (txs : List Transaction) (j : Nat),
      j ∉ is → (assignCats txs is cs).getD j default = txs.getD j default := by
  intro is
  induction is with
  | nil => intro cs txs j _; cases cs <;> rfl
  | cons i is ih =>
    intro cs txs j hj
    cases cs with
    | nil => rfl
    | cons c cs =>
      rw [assignCats, ih cs _ j (fun hm => hj (List.mem_cons_of_mem i hm)),
        setCat_getD_ne _ _ _ _
          (fun he => hj (by rw [← he]; exact List.mem_cons_self i is))]

theorem setCat_getD_self (txs : List Transaction) (i : Nat) (c : String)
    (h : i < txs.length) :
    ((setCat txs i c).getD i default).category = c := by
  rw [setCat]
  cases hti : txs.get? i with
  | none => exact absurd (List.get?_eq_none.mp hti) (Nat.not_le_of_lt h)
  | some t => rw [getD_set_self _ _ _ _ h]

/-- After assigning a batch, position `q` of the (duplicate-free) index
list carries category `q` of the batch reply. -/
theorem assignCats_getD_pos :
    ∀ (is : List Nat) (cs : List String) (txs : List Transaction) (q : Nat),
      is.Nodup → q < is.length → q < cs.length → is.getD q 0 < txs.length →
      ((assignCats txs is cs).getD (is.getD q 0) default).category =
        cs.getD q "" := by
  intro is
  induction is with
  | nil => intro cs txs q _ hq; simp at hq
  | cons i is ih =>
    intro cs txs q hnd hq hqc hlt
    cases cs with
    | nil => simp at hqc
    | cons c cs =>
      rw [assignCats]
      cases q with
      | zero =>
        simp only [List.getD_cons_zero] at hlt ⊢
        rw [assignCats_getD_notMem is cs _ i (List.nodup_cons.mp hnd).1]
        exact setCat_getD_self txs i c hlt
      | succ q =>
        simp only [List.getD_cons_succ] at hlt ⊢
        exact ih cs _ q (List.nodup_cons.mp hnd).2 (by simpa using hq)
          (by simpa using hqc) (by rw [setCat_length]; exact hlt)

/-! ## markInternal lemmas -/

theorem markInternal_length (txs : List Transaction) :
    (markInternal txs).length = txs.length := List.length_map _ _

theorem markInternal_getD (txs : List Transaction) (i : Nat) (h : i < txs.length) :
    (markInternal txs).getD i default =
      (if (txs.getD i default).internal_transfer then
        { txs.getD i default with category := "Internal Transfer" }
      else txs.getD i default) := by
  rw [markInternal, getD_map_lt _ _ _ default _ h]

theorem markInternal_sameExceptCat (txs : List Transaction) (i : Nat) :
    sameExceptCat ((markInternal txs).getD i default) (txs.getD i default) := by
  by_cases h : i < txs.length
  · rw [markInternal_getD _ _ h]
    by_cases hf : (txs.getD i default).internal_transfer
    · rw [if_pos hf]; exact ⟨rfl, rfl, rfl, rfl, rfl, rfl, rfl⟩
    · rw [if_neg hf]; exact sameExceptCat_refl _
  · rw [getD_eq_get?, getD_eq_get?,
      List.get?_eq_none.mpr (by rw [markInternal_length]; omega),
      List.get?_eq_none.mpr (by omega)]
    exact sameExceptCat_refl _

/-! ## toClassifyIndices lemmas -/

theorem mem_toClassifyIndices (txs : List Transaction) (i : Nat) :
    i ∈ toClassifyIndices txs ↔
      i < txs.length ∧ (txs.getD i default).internal_transfer = false := by
  rw [toClassifyIndices, List.mem_filter, List.mem_range, Bool.not_eq_true']

theorem toClassifyIndices_nodup (txs : List Transaction) :
    (toClassifyIndices txs).Nodup :=
  (List.nodup_range _).filter _

theorem mem_of_mem_batchSlice {idxs : List Nat} {bs b j : Nat}
    (h : j ∈ batchSlice idxs bs b) : j ∈ idxs :=
  List.drop_subset _ _ (List.take_subset _ _ h)

/-! ## runBatches lemmas -/

theorem runBatches_length (outcome : Nat → Option String) (cancelAt : Nat → Bool)
    (idxs : List Nat) (bs : Nat) :
    ∀ (fuel b : Nat) (txs : List Transaction),
      (runBatches outcome cancelAt idxs bs b fuel txs).1.length = txs.length := by
  intro fuel
  induction fuel with
  | zero => intro b txs; rfl
  | succ fuel ih =>
    intro b txs
    rw [runBatches]
    by_cases hc : cancelAt b = true
    · rw [if_pos hc]
    · rw [if_neg hc, ih, assignCats_length]

theorem runBatches_sameExceptCat (outcome : Nat → Option String)
    (cancelAt : Nat → Bool) (idxs : List Nat) (bs : Nat) :
    ∀ (fuel b : Nat) (txs : List Transaction) (j : Nat),
      sameExceptCat ((runBatches outcome cancelAt idxs bs b fuel txs).1.getD j default)
        (txs.getD j default) := by
  intro fuel
  induction fuel with
  | zero => intro b txs j; exact sameExceptCat_refl _
  | succ fuel ih =>
    intro b txs j
    rw [runBatches]
    by_cases hc : cancelAt b = true
    · rw [if_pos hc]; exact sameExceptCat_refl _
    · rw [if_neg hc]
      exact sameExceptCat_trans (ih _ _ j) (assignCats_sameExceptCat _ _ _ j)

theorem runBatches_no_cancel (outcome : Nat → Option String)
    (cancelAt : Nat → Bool) (idxs : List Nat) (bs : Nat)
    (hc : ∀ b, cancelAt b = false) :
    ∀ (fuel b : Nat) (txs : List Transaction),
      (runBatches outcome cancelAt idxs bs b fuel txs).2 = false := by
  intro fuel
  induction fuel with
  | zero => intro b txs; rfl
  | succ fuel ih =>
    intro b txs
    rw [runBatches, hc b, if_neg (by simp)]
    exact ih _ _

theorem runBatches_cancelled (outcome : Nat → Option String) (k : Nat)
    (idxs : List Nat) (bs : Nat) :
    ∀ (fuel b : Nat) (txs : List Transaction), b ≤ k → k < b + fuel →
      (runBatches outcome (fun b' => decide (k ≤ b')) idxs bs b fuel txs).2 = true := by
  intro fuel
  induction fuel with
  | zero => intro b txs h1 h2; omega
  | succ fuel ih =>
    intro b txs h1 h2
    rw [runBatches]
    by_cases hc : (decide (k ≤ b)) = true
    · rw [if_pos hc]
    · rw [if_neg hc]
      have hb : b < k := Nat.lt_of_not_le (fun hx => hc (decide_eq_true hx))
      exact ih (b + 1) _ hb (by omega)

/-- Categories of rows outside every processed batch are untouched by the
batch loop (cancellation at batch `k`). -/
theorem runBatches_cat_preserved (outcome : Nat → Option String) (k : Nat)
    (idxs : List Nat) (bs : Nat) :
    ∀ (fuel b : Nat) (txs : List Transaction) (j : Nat),
      (∀ b', b ≤ b' → b' < k → j ∉ batchSlice idxs bs b') →
      ((runBatches outcome (fun b' => decide (k ≤ b')) idxs bs b fuel txs).1.getD
        j default).category = (txs.getD j default).category := by
  intro fuel
  induction fuel with
  | zero => intro b txs j _; rfl
  | succ fuel ih =>
    intro b txs j hj
    rw [runBatches]
    by_cases hc : (decide (k ≤ b)) = true
    · rw [if_pos hc]
    · rw [if_neg hc]
      have hb : b < k := Nat.lt_of_not_le (fun hx => hc (decide_eq_true hx))
      rw [ih (b + 1) _ j (fun b' hb1 hb2 => hj b' (by omega) hb2),
        assignCats_getD_notMem _ _ _ j (hj b (Nat.le_refl b) hb)]

/-! ## Position bookkeeping for batch slices -/

theorem getD_take {α : Type} :
    ∀ (l : List α) (n q : Nat) (d : α), q < n → (l.take n).getD q d = l.getD q d := by
  intro l
  induction l with
  | nil => intro n q d _; simp
  | cons x xs ih =>
    intro n q d hq
    cases n with
    | zero => omega
    | succ n =>
      cases q with
      | zero => rfl
      | succ q => simpa [List.getD] using ih n q d (by omega)

theorem getD_drop {α : Type} :
    ∀ (l : List α) (m q : Nat) (d : α), (l.drop m).getD q d = l.getD (m + q) d := by
  intro l
  induction l with
  | nil => intro m q d; simp
  | cons x xs ih =>
    intro m q d
    cases m with
    | zero => rw [List.drop_zero, Nat.zero_add]
    | succ m =>
      rw [List.drop_succ_cons, ih, Nat.succ_add]
      rfl

theorem getD_mem {α : Type} :
    ∀ (l : List α) (q : Nat) (d : α), q < l.length → l.getD q d ∈ l := by
  intro l
  induction l with
  | nil => intro q d h; simp at h
  | cons x xs ih =>
    intro q d h
    cases q with
    | zero => exact List.mem_cons_self _ _
    | succ q => exact List.mem_cons_of_mem _ (ih q d (by simpa using h))

theorem nodup_getD_inj {idxs : List Nat} :
    idxs.Nodup → ∀ {p p' : Nat}, p < idxs.length → p' < idxs.length →
      idxs.getD p 0 = idxs.getD p' 0 → p = p' := by
  induction idxs with
  | nil => intro _ p p' hp; simp at hp
  | cons x xs ih =>
    intro hnd p p' hp hp' he
    obtain ⟨hx, hxs⟩ := List.nodup_cons.mp hnd
    cases p with
    | zero =>
      cases p' with
      | zero => rfl
      | succ p' =>
        exfalso
        rw [List.getD_cons_zero, List.getD_cons_succ] at he
        exact hx (he ▸ getD_mem xs p' 0 (by simpa using hp'))
    | succ p =>
      cases p' with
      | zero =>
        exfalso
        rw [List.getD_cons_succ, List.getD_cons_zero] at he
        exact hx (he ▸ getD_mem xs p 0 (by simpa using hp))
      | succ p' =>
        rw [List.getD_cons_succ, List.getD_cons_succ] at he
        exact congrArg Nat.succ (ih hxs (by simpa using hp) (by simpa using hp') he)

theorem batchSlice_length (idxs : List Nat) (bs b : Nat) :
    (batchSlice idxs bs b).length = min bs (idxs.length - b * bs) := by
  rw [batchSlice, List.length_take, List.length_drop]

theorem batchSlice_getD (idxs : List Nat) (bs b q : Nat) (hq : q < bs) :
    (batchSlice idxs bs b).getD q 0 = idxs.getD (b * bs + q) 0 := by
  rw [batchSlice, getD_take _ _ _ _ hq, getD_drop]

theorem batchSlice_nodup {idxs : List Nat} (hnd : idxs.Nodup) (bs b : Nat) :
    (batchSlice idxs bs b).Nodup :=
  ((List.take_sublist _ _).trans (List.drop_sublist _ _)).nodup hnd

/-- Every member of a batch slice sits at an absolute eligible-list position
inside the slice's window. -/
theorem mem_batchSlice_pos {idxs : List Nat} {bs b j : Nat}
    (h : j ∈ batchSlice idxs bs b) :
    ∃ q, q < bs ∧ b * bs + q < idxs.length ∧ idxs.getD (b * bs + q) 0 = j := by
  obtain ⟨q, hget⟩ := List.mem_iff_get.mp h
  have hlt : (q : Nat) < min bs (idxs.length - b * bs) := by
    rw [← batchSlice_length idxs bs b]
    exact q.isLt
  have hq1 : (q : Nat) < bs := by omega
  have hq2 : b * bs + (q : Nat) < idxs.length := by omega
  refine ⟨q, hq1, hq2, ?_⟩
  rw [← hget, ← batchSlice_getD _ _ _ _ hq1, getD_eq_get?, List.get?_eq_get q.isLt]
  rfl

theorem batchData_length (txs : List Transaction) (idxs : List Nat) (bs b : Nat) :
    (batchData txs idxs bs b).length = (batchSlice idxs bs b).length :=
  List.length_map _ _

/-- Tables that agree on all fields but the category produce the same batch
request data. -/
theorem batchData_congr (txs txs' : List Transaction) (idxs : List Nat) (bs b : Nat)
    (h : ∀ j, sameExceptCat (txs'.getD j default) (txs.getD j default)) :
    batchData txs' idxs bs b = batchData txs idxs bs b := by
  rw [batchData, batchData]
  refine List.map_congr_left (fun i _ => ?_)
  obtain ⟨_, h2, _, h4, _⟩ := h i
  rw [h2, h4]

/-- Every row of a batch processed before the cancellation point `k`
carries the category its batch's service outcome assigned to its in-batch
position. -/
theorem runBatches_assigned (outcome : Nat → Option String) (k : Nat)
    (idxs : List Nat) (bs : Nat) (hbs : 0 < bs) (hnd : idxs.Nodup) :
    ∀ (fuel b : Nat) (txs : List Transaction),
      (∀ j ∈ idxs, j < txs.length) →
      ∀ p, b * bs ≤ p → p < idxs.length → p / bs < k → p / bs < b + fuel →
      ((runBatches outcome (fun b' => decide (k ≤ b')) idxs bs b fuel txs).1.getD
          (idxs.getD p 0) default).category =
        (classify_batch_with_ollama (batchData txs idxs bs (p / bs))
          (outcome (p / bs))).getD (p - (p / bs) * bs) "" := by
  intro fuel
  induction fuel with
  | zero =>
    intro b txs _ p hp1 _ _ hp4
    exfalso
    have : b ≤ p / bs := (Nat.le_div_iff_mul_le hbs).mpr hp1
    omega
  | succ fuel ih =>
    intro b txs hlen p hp1 hp2 hp3 hp4
    have hble : b ≤ p / bs := (Nat.le_div_iff_mul_le hbs).mpr hp1
    have hbk : b < k := Nat.lt_of_le_of_lt hble hp3
    rw [runBatches, if_neg (by rw [decide_eq_true_eq]; omega)]
    by_cases hcase : p / bs = b
    · have hpb : p < (b + 1) * bs := by
        rw [← Nat.div_lt_iff_lt_mul hbs]
        omega
      rw [Nat.succ_mul] at hpb
      have hq : p - b * bs < bs := by omega
      have hslen : (batchSlice idxs bs b).length = min bs (idxs.length - b * bs) :=
        batchSlice_length _ _ _
      have hqs : p - b * bs < (batchSlice idxs bs b).length := by omega
      have hqc : p - b * bs <
          (classify_batch_with_ollama (batchData txs idxs bs b) (outcome b)).length := by
        rw [classify_batch_length, batchData_length]
        omega
      have hidx : idxs.getD p 0 = (batchSlice idxs bs b).getD (p - b * bs) 0 := by
        rw [batchSlice_getD _ _ _ _ hq]
        congr 1
        omega
      have hltx : (batchSlice idxs bs b).getD (p - b * bs) 0 < txs.length := by
        rw [← hidx]
        exact hlen _ (getD_mem _ _ _ hp2)
      have hpre : ∀ b', b + 1 ≤ b' → b' < k →
          idxs.getD p 0 ∉ batchSlice idxs bs b' := by
        intro b' hb1 _ hmem'
        obtain ⟨q', hq1', hq2', hq3'⟩ := mem_batchSlice_pos hmem'
        have he : b' * bs + q' = p := nodup_getD_inj hnd hq2' hp2 hq3'
        have hm : (b + 1) * bs ≤ b' * bs := Nat.mul_le_mul_right _ hb1
        rw [Nat.succ_mul] at hm
        omega
      rw [runBatches_cat_preserved outcome k idxs bs fuel (b + 1) _ _ hpre, hidx,
        assignCats_getD_pos _ _ _ _ (batchSlice_nodup hnd _ _) hqs hqc hltx, hcase]
    · have hble1 : b + 1 ≤ p / bs := by omega
      have hp1' : (b + 1) * bs ≤ p := (Nat.le_div_iff_mul_le hbs).mp hble1
      rw [ih (b + 1) _
        (fun j hj => by rw [assignCats_length]; exact hlen j hj) p hp1' hp2 hp3
        (by omega)]
      rw [batchData_congr txs _ idxs bs (p / bs)
        (fun j => assignCats_sameExceptCat _ _ _ j)]

/-! ## classify_transactions frame lemmas -/

theorem classify_length (txs : List Transaction) (bs : Nat)
    (outcome : Nat → Option String) (cancelAt : Nat → Bool) :
    (classify_transactions txs bs outcome cancelAt).1.length = txs.length := by
  rw [classify_transactions]
  by_cases h0 : (toClassifyIndices txs).length = 0
  · rw [if_pos h0]
    exact markInternal_length _
  · rw [if_neg h0]
    show (markInternal _).length = _
    rw [markInternal_length, runBatches_length]

theorem classify_sameExceptCat (txs : List Transaction) (bs : Nat)
    (outcome : Nat → Option String) (cancelAt : Nat → Bool) (j : Nat) :
    sameExceptCat ((classify_transactions txs bs outcome cancelAt).1.getD j default)
      (txs.getD j default) := by
  rw [classify_transactions]
  by_cases h0 : (toClassifyIndices txs).length = 0
  · rw [if_pos h0]
    exact markInternal_sameExceptCat _ _
  · rw [if_neg h0]
    exact sameExceptCat_trans (markInternal_sameExceptCat _ _)
      (runBatches_sameExceptCat _ _ _ _ _ _ _ _)

/-! ## Column mapper invariance lemmas -/

theorem lookupNorm_congr :
    ∀ (cols cols' : List String),
      cols.map normalize_column_name = cols'.map normalize_column_name →
      ∀ key, (lookupNorm cols key).map normalize_column_name =
        (lookupNorm cols' key).map normalize_column_name := by
  intro cols
  induction cols with
  | nil =>
    intro cols' h key
    cases cols' with
    | nil => rfl
    | cons b bs => exact absurd h (by simp)
  | cons a as ih =>
    intro cols' h key
    cases cols' with
    | nil => exact absurd h (by simp)
    | cons b bs =>
      rw [List.map_cons, List.map_cons] at h
      obtain ⟨hab, hrest⟩ := List.cons.injEq _ _ _ _ ▸ h
      rw [lookupNorm, lookupNorm]
      by_cases hk : normalize_column_name a = key
      · rw [List.find?_cons_of_pos _ (by rw [hk]; exact decide_eq_true rfl),
          List.find?_cons_of_pos _ (by rw [← hab, hk]; exact decide_eq_true rfl)]
        simp only [Option.map_some']
        rw [hab]
      · rw [List.find?_cons_of_neg _ (by simpa using hk),
          List.find?_cons_of_neg _ (by rw [← hab]; simpa using hk)]
        exact ih bs hrest key

theorem detectField_congr (cols cols' : List String)
    (h : cols.map normalize_column_name = cols'.map normalize_column_name) :
    ∀ vars : List String,
      (detectField cols vars).map normalize_column_name =
        (detectField cols' vars).map normalize_column_name := by
  intro vars
  induction vars with
  | nil => rfl
  | cons v vs ih =>
    have hl := lookupNorm_congr cols cols' h (normalize_column_name v)
    cases h1 : lookupNorm cols (normalize_column_name v) with
    | some c =>
      cases h2 : lookupNorm cols' (normalize_column_name v) with
      | some c' =>
        rw [h1, h2] at hl
        simp only [Option.map_some'] at hl
        simp only [detectField, h1, h2, Option.map_some']
        exact hl
      | none =>
        rw [h1, h2] at hl
        exact absurd hl.symm (by simp)
    | none =>
      cases h2 : lookupNorm cols' (normalize_column_name v) with
      | some c' =>
        rw [h1, h2] at hl
        exact absurd hl (by simp)
      | none =>
        simp only [detectField, h1, h2]
        exact ih

/-! # Claim theorems -/

/-- A single flagged transaction, for witnesses. -/
def exFlagged : Transaction :=
  { mkTx "fee" 5 (some 0) "A" with internal_transfer := true }

/-- C1: transfer-pair matching is greedy, one-shot and deterministic: the
scan returns the lowest-index member of the candidate pool (pool membership
requires being unflagged, so flagged rows are excluded from all later
pools); flags are only ever added, never removed (one-shot); on the
three-way mutual match exactly the two lowest-index transactions end up
flagged; and re-running on identical input gives the identical flags. -/
theorem C1_transfer_matching_greedy :
    (∀ (txs : List Transaction) (inv : List Bool) (i : Nat) (amt : Rat)
        (d : Int) (tol : Rat) (j : Nat),
      findMatch txs inv i amt d tol = some j →
        candidateOk txs inv i amt d tol j = true ∧
          ∀ k, k < j → candidateOk txs inv i amt d tol k = false) ∧
    (∀ (txs : List Transaction) (u : String) (tol : Rat) (i : Nat),
      (txs.getD i default).internal_transfer = true →
        ((detect_internal_transfers txs u tol).getD i default).internal_transfer
          = true) ∧
    ((detect_internal_transfers exThree "" (Rat.divInt 1 100)).map
      (fun t => t.internal_transfer) = [true, true, false]) ∧
    (detect_internal_transfers exThree "" (Rat.divInt 1 100) =
      detect_internal_transfers exThree "" (Rat.divInt 1 100)) := by
  refine ⟨?_, ?_, by decide, rfl⟩
  · intro txs inv i amt d tol j h
    obtain ⟨_, h2, h3⟩ := findMatchFrom_spec txs inv i amt d tol txs.length 0 j h
    exact ⟨h2, fun k hk => h3 k (Nat.zero_le k) hk⟩
  · intro txs u tol i h
    exact detect_mono txs u tol i h

theorem C1_transfer_matching_greedy_witness :
    candidateOk exThree (exThree.map isInvestment) 0 (Rat.divInt 1 200) 0
      (Rat.divInt 1 100) 1 = true ∧
    ((detect_internal_transfers [exFlagged] "" (Rat.divInt 1 100)).getD 0
      default).internal_transfer = true :=
  ⟨(C1_transfer_matching_greedy.1 exThree (exThree.map isInvestment) 0
      (Rat.divInt 1 200) 0 (Rat.divInt 1 100) 1 (by decide)).1,
   C1_transfer_matching_greedy.2.1 [exFlagged] "" (Rat.divInt 1 100) 0 (by decide)⟩

/-- C2: flagged transactions always end with category "Internal Transfer",
are never in the eligible list, and are never in any batch sent to the
service — for every batch size, service outcome and cancellation pattern,
so in every terminal state (completed, cancelled, or all-flagged). -/
theorem C2_internal_never_classified :
    ∀ (txs : List Transaction) (bs : Nat) (outcome : Nat → Option String)
      (cancelAt : Nat → Bool) (i : Nat),
      i < txs.length → (txs.getD i default).internal_transfer = true →
      ((classify_transactions txs bs outcome cancelAt).1.getD i default).category
          = "Internal Transfer" ∧
        i ∉ toClassifyIndices txs ∧
        ∀ b, i ∉ batchSlice (toClassifyIndices txs) bs b := by
  intro txs bs outcome cancelAt i hi hflag
  have hnm : i ∉ toClassifyIndices txs := by
    intro hmem
    rw [((mem_toClassifyIndices txs i).mp hmem).2] at hflag
    exact Bool.false_ne_true hflag
  refine ⟨?_, hnm, fun b hmem => hnm (mem_of_mem_batchSlice hmem)⟩
  rw [classify_transactions]
  by_cases h0 : (toClassifyIndices txs).length = 0
  · rw [if_pos h0]
    rw [markInternal_getD txs i hi, if_pos hflag]
  · rw [if_neg h0]
    have hfp : ((runBatches outcome cancelAt (toClassifyIndices txs) bs 0
        (numBatches (toClassifyIndices txs).length bs) txs).1.getD i
          default).internal_transfer = true := by
      rw [(runBatches_sameExceptCat outcome cancelAt (toClassifyIndices txs) bs
        (numBatches (toClassifyIndices txs).length bs) 0 txs i).2.2.2.2.2.2]
      exact hflag
    show ((markInternal _).getD i default).category = _
    rw [markInternal_getD _ i (by rw [runBatches_length]; exact hi), if_pos hfp]

theorem C2_internal_never_classified_witness :
    ((classify_transactions [exFlagged] 1 (fun _ => none)
      (fun _ => false)).1.getD 0 default).category = "Internal Transfer" ∧
    0 ∉ toClassifyIndices [exFlagged] :=
  ⟨(C2_internal_never_classified [exFlagged] 1 (fun _ => none) (fun _ => false) 0
      (by decide) (by decide)).1,
   (C2_internal_never_classified [exFlagged] 1 (fun _ => none) (fun _ => false) 0
      (by decide) (by decide)).2.1⟩

/-- C3: the batch classifier always returns exactly as many labels as the
batch has members; when the service call raises, every member gets
"Sonstiges"; a run with no cancellation is never aborted by batch failures;
a 3-item batch with a 2-line reply pads the third member with "Sonstiges";
a 5-line reply for a 3-item batch is truncated to the first 3. -/
theorem C3_batch_classifier_totals :
    (∀ (batch : List (String × String)) (outcome : Option String),
      (classify_batch_with_ollama batch outcome).length = batch.length) ∧
    (∀ batch : List (String × String),
      classify_batch_with_ollama batch none =
        List.replicate batch.length "Sonstiges") ∧
    (∀ (txs : List Transaction) (bs : Nat) (outcome : Nat → Option String),
      (classify_transactions txs bs outcome (fun _ => false)).2 = false) ∧
    (classify_batch_with_ollama [("a", "x"), ("b", "y"), ("c", "z")]
      (some "1. Miete\n2. Strom") = ["Miete", "Strom", "Sonstiges"]) ∧
    (classify_batch_with_ollama [("a", "x"), ("b", "y"), ("c", "z")]
      (some "1. K1\n2. K2\n3. K3\n4. K4\n5. K5") = ["K1", "K2", "K3"]) := by
  refine ⟨classify_batch_length, fun batch => rfl, ?_, by decide, by decide⟩
  intro txs bs outcome
  rw [classify_transactions]
  by_cases h0 : (toClassifyIndices txs).length = 0
  · rw [if_pos h0]
  · rw [if_neg h0]
    exact runBatches_no_cancel outcome _ _ bs (fun _ => rfl) _ 0 txs

/-- C5: clean_amount on the four documented inputs: European thousands/
decimal handling, and silent 0.0 on malformed or empty input (the function
is total, hence never raises). -/
theorem C5_clean_amount_examples :
    clean_amount "1.234,56" = 1234.56 ∧ clean_amount "12,50" = 12.50 ∧
      clean_amount "abc" = 0 ∧ clean_amount "" = 0 := by
  refine ⟨?_, ?_, by decide, by decide⟩
  · have h : clean_amount "1.234,56" = Rat.divInt 123456 100 := by decide
    rw [h, Rat.divInt_eq_div]
    norm_num
  · have h : clean_amount "12,50" = Rat.divInt 1250 100 := by decide
    rw [h, Rat.divInt_eq_div]
    norm_num

/-- C6: with a non-empty user name and an initially unflagged table, the
identity pass flags a row exactly when its account contains the user name
(case-insensitive substring) and its description matches no investment
keyword — in particular an investment row is never flagged by this path. -/
theorem C6_identity_path :
    ∀ (u : String) (txs : List Transaction) (i : Nat), u ≠ "" →
      (∀ t ∈ txs, t.internal_transfer = false) → i < txs.length →
      ((applyUserFlag u (txs.map isInvestment) txs).getD i default).internal_transfer
        = (containsCI (txs.getD i default).account u &&
            !(isInvestment (txs.getD i default))) := by
  intro u txs i hu hflags hi
  rw [applyUserFlag, if_neg hu,
    applyUserFlagAux_flag_iff u txs _ i hi (by rw [List.length_map]; exact hi) hflags,
    getD_map_lt isInvestment txs i default false hi]

/-- Identity-pass examples: account contains the user name with a plain
description (flagged), and with an investment description (not flagged). -/
def exC6 : List Transaction :=
  [mkTx "Miete Januar" (-800) (some 0) "Max Mustermann",
   mkTx "ETF Kauf Sparplan" (-200) (some 0) "Max Depotkonto"]

theorem C6_identity_path_witness :
    (((applyUserFlag "max" (exC6.map isInvestment) exC6).getD 0
        default).internal_transfer =
      (containsCI (exC6.getD 0 default).account "max" &&
        !(isInvestment (exC6.getD 0 default)))) ∧
    (((applyUserFlag "max" (exC6.map isInvestment) exC6).getD 1
        default).internal_transfer =
      (containsCI (exC6.getD 1 default).account "max" &&
        !(isInvestment (exC6.getD 1 default)))) :=
  ⟨C6_identity_path "max" exC6 0 (by decide) (by decide) (by decide),
   C6_identity_path "max" exC6 1 (by decide) (by decide) (by decide)⟩
example : Rat.divInt 123456 100 = 1234.56 := by rw [Rat.divInt_eq_div]; norm_num
example : clean_amount "abc" = 0 := by decide
example : clean_amount "" = 0 := by decide
example : clean_amount "-€5,25" = Rat.divInt (-525) 100 := by decide

/-- 25 unflagged transactions, for the cancellation scenario. -/
def txs25 : List Transaction := List.replicate 25 (mkTx "t" 1 (some 0) "A")

/-- A 10-line numbered reply assigning a real category to a 10-item batch. -/
def reply10 : String :=
  "1. Essen\n2. Essen\n3. Essen\n4. Essen\n5. Essen\n6. Essen\n7. Essen\n8. Essen\n9. Essen\n10. Essen"

/-- C4: with the cancellation signal set from batch k on, the run reports
cancelled whenever a batch remained (k below the batch count); every
eligible row at position at least k*bs keeps its prior category; every
eligible row of a batch before k carries the category its batch's service
outcome assigned to its in-batch position; and concretely, 25 unflagged
transactions at batch size 10 cancelled after the first batch leave
exactly 10 rows with the real category and 15 still "Uncategorized", with
the run reported cancelled. -/
theorem C4_cancellation :
    (∀ (txs : List Transaction) (bs k : Nat) (outcome : Nat → Option String),
      0 < bs → 0 < (toClassifyIndices txs).length →
      k < numBatches (toClassifyIndices txs).length bs →
      (classify_transactions txs bs outcome (fun b => decide (k ≤ b))).2 = true) ∧
    (∀ (txs : List Transaction) (bs k : Nat) (outcome : Nat → Option String)
        (p : Nat), 0 < bs → p < (toClassifyIndices txs).length → k * bs ≤ p →
      ((classify_transactions txs bs outcome (fun b => decide (k ≤ b))).1.getD
          ((toClassifyIndices txs).getD p 0) default).category =
        (txs.getD ((toClassifyIndices txs).getD p 0) default).category) ∧
    (∀ (txs : List Transaction) (bs k : Nat) (outcome : Nat → Option String)
        (p : Nat), 0 < bs → p < (toClassifyIndices txs).length → p / bs < k →
      ((classify_transactions txs bs outcome (fun b => decide (k ≤ b))).1.getD
          ((toClassifyIndices txs).getD p 0) default).category =
        (classify_batch_with_ollama
          (batchData txs (toClassifyIndices txs) bs (p / bs))
          (outcome (p / bs))).getD (p - (p / bs) * bs) "") ∧
    ((classify_transactions txs25 10 (fun _ => some reply10)
        (fun b => decide (1 ≤ b))).2 = true ∧
      (classify_transactions txs25 10 (fun _ => some reply10)
        (fun b => decide (1 ≤ b))).1.countP (fun t => t.category == "Essen") = 10 ∧
      (classify_transactions txs25 10 (fun _ => some reply10)
        (fun b => decide (1 ≤ b))).1.countP
          (fun t => t.category == "Uncategorized") = 15) := by
  refine ⟨?_, ?_, ?_, by decide, by decide, by decide⟩
  · intro txs bs k outcome hbs h0 hk
    rw [classify_transactions, if_neg (by omega)]
    exact runBatches_cancelled outcome k _ bs _ 0 txs (Nat.zero_le k) (by omega)
  · intro txs bs k outcome p hbs hp hkp
    rw [classify_transactions, if_neg (by omega)]
    have hmem : (toClassifyIndices txs).getD p 0 ∈ toClassifyIndices txs :=
      getD_mem _ _ _ hp
    have hjl : (toClassifyIndices txs).getD p 0 < txs.length :=
      ((mem_toClassifyIndices txs _).mp hmem).1
    have hjf : (txs.getD ((toClassifyIndices txs).getD p 0)
        default).internal_transfer = false :=
      ((mem_toClassifyIndices txs _).mp hmem).2
    have hfp : ((runBatches outcome (fun b => decide (k ≤ b)) (toClassifyIndices txs)
        bs 0 (numBatches (toClassifyIndices txs).length bs) txs).1.getD
          ((toClassifyIndices txs).getD p 0) default).internal_transfer = false := by
      rw [(runBatches_sameExceptCat outcome _ (toClassifyIndices txs) bs
        (numBatches (toClassifyIndices txs).length bs) 0 txs _).2.2.2.2.2.2]
      exact hjf
    show ((markInternal _).getD _ default).category = _
    rw [markInternal_getD _ _ (by rw [runBatches_length]; exact hjl),
      if_neg (by rw [hfp]; exact Bool.false_ne_true)]
    refine runBatches_cat_preserved outcome k _ bs _ 0 txs _ ?_
    intro b' _ hb' hmem'
    obtain ⟨q', hq1', hq2', hq3'⟩ := mem_batchSlice_pos hmem'
    have he := nodup_getD_inj (toClassifyIndices_nodup txs) hq2' hp hq3'
    have hm : (b' + 1) * bs ≤ k * bs := Nat.mul_le_mul_right _ (by omega)
    rw [Nat.succ_mul] at hm
    omega
  · intro txs bs k outcome p hbs hp hpk
    rw [classify_transactions, if_neg (by omega)]
    have hmem : (toClassifyIndices txs).getD p 0 ∈ toClassifyIndices txs :=
      getD_mem _ _ _ hp
    have hjl : (toClassifyIndices txs).getD p 0 < txs.length :=
      ((mem_toClassifyIndices txs _).mp hmem).1
    have hjf : (txs.getD ((toClassifyIndices txs).getD p 0)
        default).internal_transfer = false :=
      ((mem_toClassifyIndices txs _).mp hmem).2
    have hfp : ((runBatches outcome (fun b => decide (k ≤ b)) (toClassifyIndices txs)
        bs 0 (numBatches (toClassifyIndices txs).length bs) txs).1.getD
          ((toClassifyIndices txs).getD p 0) default).internal_transfer = false := by
      rw [(runBatches_sameExceptCat outcome _ (toClassifyIndices txs) bs
        (numBatches (toClassifyIndices txs).length bs) 0 txs _).2.2.2.2.2.2]
      exact hjf
    have hnb : p / bs < numBatches (toClassifyIndices txs).length bs := by
      have h1 : p / bs ≤ ((toClassifyIndices txs).length - 1) / bs :=
        Nat.div_le_div_right (by omega)
      have h2 : (toClassifyIndices txs).length + bs - 1 =
          ((toClassifyIndices txs).length - 1) + bs := by omega
      rw [numBatches, h2, Nat.add_div_right _ hbs]
      omega
    show ((markInternal _).getD _ default).category = _
    rw [markInternal_getD _ _ (by rw [runBatches_length]; exact hjl),
      if_neg (by rw [hfp]; exact Bool.false_ne_true)]
    exact runBatches_assigned outcome k _ bs hbs (toClassifyIndices_nodup txs) _ 0
      txs (fun j hj => ((mem_toClassifyIndices txs j).mp hj).1) p (by omega) hp hpk
      (by omega)

theorem C4_cancellation_witness :
    ((classify_transactions [mkTx "w" 1 (some 0) "A"] 1 (fun _ => none)
        (fun b => decide (0 ≤ b))).2 = true) ∧
    ((classify_transactions [mkTx "w" 1 (some 0) "A"] 1 (fun _ => none)
        (fun b => decide (0 ≤ b))).1.getD
          ((toClassifyIndices [mkTx "w" 1 (some 0) "A"]).getD 0 0) default).category =
      ([mkTx "w" 1 (some 0) "A"].getD
        ((toClassifyIndices [mkTx "w" 1 (some 0) "A"]).getD 0 0) default).category :=
  ⟨C4_cancellation.1 [mkTx "w" 1 (some 0) "A"] 1 0 (fun _ => none) (by decide)
      (by decide) (by decide),
   C4_cancellation.2.1 [mkTx "w" 1 (some 0) "A"] 1 0 (fun _ => none) 0 (by decide)
      (by decide) (by decide)⟩

/-- C7 counterexample: the claim says the CSV loader's encoding resolution
never raises and accepts only decodings free of the replacement character.
But a UTF-8 BOM followed by an invalid UTF-8 byte raises, and the bytes
EF BF BD are accepted via strict UTF-8 even though the decoded text is
exactly the replacement character U+FFFD. -/
theorem C7_encoding_counterexample :
    load_csv_decode [0xEF, 0xBB, 0xBF, 0x80] = Except.error () ∧
    load_csv_decode [0xEF, 0xBF, 0xBD] = Except.ok [0xFFFD] := by decide

/-- C7 (amended): for inputs without a UTF-8 BOM the encoding resolution
never raises — the candidates are tried in order and accepted on decode
success (ISO-8859-1 always succeeds), with no replacement-character test;
in particular a successful strict UTF-8 decode is accepted as-is. -/
theorem C7_encoding_amended :
    ∀ bsl : List Byte, hasBOM bsl = false →
      (∃ s, load_csv_decode bsl = Except.ok s) ∧
      (∀ s, utf8Decode bsl = some s → load_csv_decode bsl = Except.ok s) := by
  intro bsl hb
  have hb' : ¬(hasBOM bsl = true) := by rw [hb]; exact Bool.false_ne_true
  constructor
  · rw [load_csv_decode, if_neg hb']
    cases h1 : utf8Decode bsl with
    | some s =>
      simp only [encCandidates, tryCandidates, h1]
      exact ⟨s, rfl⟩
    | none =>
      cases h2 : cp1252Decode bsl with
      | some s =>
        simp only [encCandidates, tryCandidates, h1, h2]
        exact ⟨s, rfl⟩
      | none =>
        simp only [encCandidates, tryCandidates, h1, h2]
        exact ⟨latin1Decode bsl, rfl⟩
  · intro s hs
    rw [load_csv_decode, if_neg hb']
    simp only [encCandidates, tryCandidates, hs]

theorem C7_encoding_amended_witness :
    (∃ s, load_csv_decode [0x41, 0xE4] = Except.ok s) ∧
    load_csv_decode [0x31] = Except.ok [0x31] :=
  ⟨(C7_encoding_amended [0x41, 0xE4] (by decide)).1,
   (C7_encoding_amended [0x31] (by decide)).2 [0x31] (by decide)⟩

/-- C8: column auto-detection is invariant under case/space/underscore
variation: header lists with equal normalized forms produce detections
with equal normalized forms for all five canonical fields; and "Datum",
"datum " and "DATUM" each map to the (sole) date header. -/
theorem C8_column_mapping_invariance :
    (∀ cols cols' : List String,
      cols.map normalize_column_name = cols'.map normalize_column_name →
      ((auto_detect_columns cols).date.map normalize_column_name =
          (auto_detect_columns cols').date.map normalize_column_name) ∧
        ((auto_detect_columns cols).description.map normalize_column_name =
          (auto_detect_columns cols').description.map normalize_column_name) ∧
        ((auto_detect_columns cols).amount.map normalize_column_name =
          (auto_detect_columns cols').amount.map normalize_column_name) ∧
        ((auto_detect_columns cols).account.map normalize_column_name =
          (auto_detect_columns cols').account.map normalize_column_name) ∧
        ((auto_detect_columns cols).currency.map normalize_column_name =
          (auto_detect_columns cols').currency.map normalize_column_name)) ∧
    ((auto_detect_columns ["Datum"]).date = some "Datum") ∧
    ((auto_detect_columns ["datum "]).date = some "datum ") ∧
    ((auto_detect_columns ["DATUM"]).date = some "DATUM") := by
  refine ⟨?_, by decide, by decide, by decide⟩
  intro cols cols' h
  exact ⟨detectField_congr cols cols' h dateVariations,
    detectField_congr cols cols' h descriptionVariations,
    detectField_congr cols cols' h amountVariations,
    detectField_congr cols cols' h accountVariations,
    detectField_congr cols cols' h currencyVariations⟩

theorem C8_column_mapping_invariance_witness :
    (auto_detect_columns ["Datum"]).date.map normalize_column_name =
      (auto_detect_columns ["DATUM"]).date.map normalize_column_name :=
  (C8_column_mapping_invariance.1 ["Datum"] ["DATUM"] (by decide)).1

/-- C9 counterexample: the claim says the caller's very object is updated
in place. But both passes start with a copy: on a table where the matcher
flags an offsetting pair, the heap cell the caller passed in is unchanged
after the call, the update is real (the result differs from the input
table), and the returned reference is a different cell. -/
theorem C9_inplace_counterexample :
    ((detectRef [exPair] 0 "" (Rat.divInt 1 100)).1.getD 0 [] = exPair) ∧
    (detect_internal_transfers exPair "" (Rat.divInt 1 100) ≠ exPair) ∧
    ((detectRef [exPair] 0 "" (Rat.divInt 1 100)).2 ≠ 0) ∧
    ((detectRef [exPair] 0 "" (Rat.divInt 1 100)).1.getD 1 [] =
      detect_internal_transfers exPair "" (Rat.divInt 1 100)) := by decide

/-- C9 (amended): each pass copies the caller's table, updates the copy,
and returns a fresh reference: the caller's cell is untouched, the
returned reference is new (distinct from the caller's), and the table at
the returned reference is exactly the pass's result on the caller's
table. -/
theorem C9_copy_semantics_amended :
    ∀ (h : Heap) (r : Nat) (u : String) (tol : Rat) (bs : Nat)
      (outcome : Nat → Option String) (cancelAt : Nat → Bool), r < h.length →
      ((detectRef h r u tol).1.getD r [] = h.getD r []) ∧
      ((detectRef h r u tol).2 = h.length) ∧
      ((detectRef h r u tol).2 ≠ r) ∧
      ((detectRef h r u tol).1.getD (detectRef h r u tol).2 [] =
        detect_internal_transfers (h.getD r []) u tol) ∧
      ((classifyRef h r bs outcome cancelAt).1.getD r [] = h.getD r []) ∧
      ((classifyRef h r bs outcome cancelAt).2 = h.length) ∧
      ((classifyRef h r bs outcome cancelAt).2 ≠ r) ∧
      ((classifyRef h r bs outcome cancelAt).1.getD
          (classifyRef h r bs outcome cancelAt).2 [] =
        (classify_transactions (h.getD r []) bs outcome cancelAt).1) := by
  intro h r u tol bs outcome cancelAt hr
  have hne : h.length ≠ r := by omega
  have hlen : h.length < (h ++ [h.getD r []]).length := by
    rw [List.length_append]
    simp
  refine ⟨?_, rfl, by show h.length ≠ r; omega, ?_, ?_, rfl,
    by show h.length ≠ r; omega, ?_⟩
  · show ((h ++ [h.getD r []]).set h.length _).getD r [] = h.getD r []
    rw [getD_set_ne _ _ _ _ _ hne, getD_append_lt _ _ _ _ hr]
  · show ((h ++ [h.getD r []]).set h.length _).getD h.length [] = _
    rw [getD_set_self _ _ _ _ hlen]
    show detect_internal_transfers ((h ++ [h.getD r []]).getD h.length []) u tol = _
    rw [getD_append_length]
  · show ((h ++ [h.getD r []]).set h.length _).getD r [] = h.getD r []
    rw [getD_set_ne _ _ _ _ _ hne, getD_append_lt _ _ _ _ hr]
  · show ((h ++ [h.getD r []]).set h.length _).getD h.length [] = _
    rw [getD_set_self _ _ _ _ hlen]
    show (classify_transactions ((h ++ [h.getD r []]).getD h.length []) bs outcome
      cancelAt).1 = _
    rw [getD_append_length]

theorem C9_copy_semantics_amended_witness :
    ((detectRef [exPair] 0 "" (Rat.divInt 1 100)).1.getD 0 [] =
      [exPair].getD 0 []) ∧
    ((classifyRef [exPair] 0 1 (fun _ => none) (fun _ => false)).1.getD
        (classifyRef [exPair] 0 1 (fun _ => none) (fun _ => false)).2 [] =
      (classify_transactions ([exPair].getD 0 []) 1 (fun _ => none)
        (fun _ => false)).1) :=
  ⟨(C9_copy_semantics_amended [exPair] 0 "" (Rat.divInt 1 100) 1 (fun _ => none)
      (fun _ => false) (by decide)).1,
   (C9_copy_semantics_amended [exPair] 0 "" (Rat.divInt 1 100) 1 (fun _ => none)
      (fun _ => false) (by decide)).2.2.2.2.2.2.2⟩

/-- C10: both passes are frame-preserving: row count and order are kept,
and every row agrees with its input row on all fields except (possibly)
internal_transfer for the matcher and category for the orchestrator —
dates, amounts, descriptions, accounts, currencies and sources are never
altered. -/
theorem C10_frame_preservation :
    ∀ (txs : List Transaction) (u : String) (tol : Rat) (bs : Nat)
      (outcome : Nat → Option String) (cancelAt : Nat → Bool),
      ((detect_internal_transfers txs u tol).length = txs.length) ∧
      (∀ j, sameExceptIT ((detect_internal_transfers txs u tol).getD j default)
        (txs.getD j default)) ∧
      ((classify_transactions txs bs outcome cancelAt).1.length = txs.length) ∧
      (∀ j, sameExceptCat
        ((classify_transactions txs bs outcome cancelAt).1.getD j default)
        (txs.getD j default)) :=
  fun txs u tol bs outcome cancelAt =>
    ⟨detect_length txs u tol,
     fun j => detect_sameExceptIT txs u tol j,
     classify_length txs bs outcome cancelAt,
     fun j => classify_sameExceptCat txs bs outcome cancelAt j⟩
